import Mathlib

/-!
Verification of the bibites-prediction spatial-analysis core.

The Lean definitions below are a shallow embedding of the Python sources:

* `src/core/parser.py` — `extract_field` over parsed JSON documents;
* `src/tools/lib/spatial_analysis.py` — `parse_zone_configuration`,
  `extract_world_radius`, `classify_zone_concentric` and the zone-totals
  accumulation of `generate_spatial_analysis`.

Numbers are modelled by `ℚ`.  The source compares real square roots
(`math.sqrt`) against zone radii; every such comparison is embedded as the
algebraically equivalent rational comparison on squares (valid because the
world radius is positive in every theorem below, and `√` is monotone on
nonnegative reals).  Each encoding is noted where it occurs.
-/

/-- A parsed JSON document (the result of `orjson.loads` on a `.bb8` or
settings file): object, array, string, number, boolean or null. -/
inductive J where
  | null : J
  | bool (b : Bool) : J
  | num (q : ℚ) : J
  | str (s : String) : J
  | arr (xs : List J) : J
  | obj (kvs : List (String × J)) : J

/-- Key lookup in a JSON object's field list (Python `dict[key]` /
`dict.get(key)`; parsed objects have unique keys, lookup takes the first). -/
def jLookup (k : String) : List (String × J) → Option J
  | [] => none
  | (k0, v) :: rest => if k0 = k then some v else jLookup k rest

/-- Python `data.get(key)`: `some` value for a key of a JSON object, `none`
for a missing key or a non-object. -/
def jGet (j : J) (k : String) : Option J :=
  match j with
  | J.obj kvs => jLookup k kvs
  | _ => none

/-- Python truthiness of a JSON value (`bool(v)`). -/
def pyTruthy : J → Bool
  | J.null => false
  | J.bool b => b
  | J.num q => decide (q ≠ 0)
  | J.str s => decide (s ≠ "")
  | J.arr xs => !xs.isEmpty
  | J.obj kvs => !kvs.isEmpty

/-- Python truthiness of `dict.get(key)`: `None` (a missing key) is falsy. -/
def pyTruthyOpt : Option J → Bool
  | none => false
  | some v => pyTruthy v

/-- `isinstance(v, dict)`. -/
def isObj : J → Bool
  | J.obj _ => true
  | _ => false

/-- The segment loop of `extract_field` (parser.py lines 60-66):
`current = current[part]` for each part.  Subscripting with a string part
raises `KeyError` on a missing key and `TypeError` on every non-dict value
(including lists, since the part is a string, never an int); both are caught
and turned into `None`. -/
def extract_go : J → List String → Option J
  | cur, [] => some cur
  | cur, p :: ps =>
    match cur with
    | J.obj kvs =>
      match jLookup p kvs with
      | some v => extract_go v ps
      | none => none
    | _ => none

/-- `extract_field(data, field_path)` (parser.py lines 49-66): walk the
dot-separated path, returning `none` instead of raising.  Lean's
`String.splitOn "."` agrees with Python's `str.split('.')` on every path
(both give `[""]` for the empty string and keep empty segments). -/
def extract_field (data : J) (field_path : String) : Option J :=
  extract_go data (field_path.splitOn ".")

/-- Specification-side resolution relation for a dotted path: `Resolves d ps v`
holds when every segment of `ps` resolves through object keys from `d` and
arrives at `v`. -/
inductive Resolves : J → List String → J → Prop
  | nil (d : J) : Resolves d [] d
  | cons {kvs : List (String × J)} {p : String} {ps : List String} {v w : J}
      (hk : jLookup p kvs = some v) (hrest : Resolves v ps w) :
      Resolves (J.obj kvs) (p :: ps) w

/-- A zone record harvested from the save metadata, with the fields
`classify_zone_concentric` reads via `zone.get(...)`; the default values are
the `.get` defaults used at lines 123-131 of spatial_analysis.py. -/
structure Zone where
  name : String := "Unknown"
  radius : ℚ := 0
  insideRadius : ℚ := 0
  distribution : String := ""
  posX : ℚ := 0
  posY : ℚ := 0
  radiusIsRelative : Bool := true
  material : String := ""
deriving Repr, DecidableEq

/-- A zone's effective geometry, after unit normalization and the AntiPred
distribution workaround (spatial_analysis.py lines 122-139). -/
structure EffZone where
  name : String
  radius : ℚ
  insideRadius : ℚ
  posX : ℚ
  posY : ℚ
  distribution : String
deriving Repr, DecidableEq

/-- Lines 122-139: when `radiusIsRelative` is false, divide `radius`,
`insideRadius`, `posX`, `posY` by the world radius; a zone literally named
`"AntiPred"` with distribution `"Flat"` is silently reinterpreted as
`"CentricGradual"` (workaround for corrupted metadata). -/
def effZone (world_radius : ℚ) (z : Zone) : EffZone :=
  { name := z.name
    radius := if z.radiusIsRelative then z.radius else z.radius / world_radius
    insideRadius :=
      if z.radiusIsRelative then z.insideRadius else z.insideRadius / world_radius
    posX := if z.radiusIsRelative then z.posX else z.posX / world_radius
    posY := if z.radiusIsRelative then z.posY else z.posY / world_radius
    distribution :=
      if z.name = "AntiPred" ∧ z.distribution = "Flat" then "CentricGradual"
      else z.distribution }

/-- An entry of the `positioned_zones` list (lines 147-151).  The source
stores `math.sqrt` of the squared offset; the embedding stores the squared
offset itself (`dist2`), which induces the same order and the same
comparisons against nonnegative radii. -/
structure PosMatch where
  name : String
  dist2 : ℚ
deriving Repr, DecidableEq

/-- An entry of the `concentric_zones` list (lines 156-173): a radial
interval `[minD, maxD]` plus the priority used for sorting. -/
structure ConcZone where
  name : String
  minD : ℚ
  maxD : ℚ
  priority : ℚ
deriving Repr, DecidableEq

/-- Squared Euclidean distance from the normalized point to the zone's
position (the argument of `math.sqrt` at line 144). -/
def posDist2 (relX relY : ℚ) (e : EffZone) : ℚ :=
  (relX - e.posX) * (relX - e.posX) + (relY - e.posY) * (relY - e.posY)

/-- One iteration of the partition loop (lines 122-177) over an effective
zone.  The positioned test `zone_distance <= radius` of line 146 is embedded
as `0 ≤ radius ∧ zone_distance² ≤ radius²`, which is exactly equivalent since
`zone_distance = √(posDist2) ≥ 0`. -/
def bucketStep (relX relY : ℚ) (acc : List PosMatch × List ConcZone) (e : EffZone) :
    List PosMatch × List ConcZone :=
  if e.distribution = "Flat" ∧ ¬(e.posX = 0 ∧ e.posY = 0) then
    if 0 ≤ e.radius ∧ posDist2 relX relY e ≤ e.radius * e.radius then
      (acc.1 ++ [{ name := e.name, dist2 := posDist2 relX relY e }], acc.2)
    else acc
  else if e.distribution = "CentricGradual" ∧ e.posX = 0 ∧ e.posY = 0 then
    (acc.1, acc.2 ++ [{ name := e.name, minD := 0, maxD := e.radius, priority := 1 }])
  else if (e.distribution = "Ring" ∨ e.distribution = "FlatRing") ∧
      e.posX = 0 ∧ e.posY = 0 then
    if e.insideRadius * e.radius < e.radius then
      (acc.1, acc.2 ++ [{ name := e.name, minD := e.insideRadius * e.radius,
                          maxD := e.radius, priority := 2 }])
    else acc
  else acc

/-- The partition loop of lines 119-177: positioned matches and concentric
candidates, in zone-list order. -/
def buckets (relX relY : ℚ) (effs : List EffZone) : List PosMatch × List ConcZone :=
  effs.foldl (bucketStep relX relY) ([], [])

/-- Python's `min(positioned_zones, key=lambda z: z['distance_from_center'])`
(line 182): the first element of minimal distance; comparing stored squared
distances orders them exactly as the square roots do. -/
def minByDist2 : List PosMatch → Option PosMatch
  | [] => none
  | p :: ps =>
    some (ps.foldl (fun best q => if q.dist2 < best.dist2 then q else best) p)

/-- Strict lexicographic order on the sort key
`(z['priority'], z['max_distance'] - z['min_distance'])` of line 192. -/
def concKeyLt (a b : ConcZone) : Bool :=
  decide (a.priority < b.priority) ||
    (decide (a.priority = b.priority) && decide (a.maxD - a.minD < b.maxD - b.minD))

/-- Stable insertion of a zone before the first entry that is not strictly
smaller. -/
def insertConc (x : ConcZone) : List ConcZone → List ConcZone
  | [] => [x]
  | y :: ys => if concKeyLt y x then y :: insertConc x ys else x :: y :: ys

/-- `concentric_zones.sort(key=lambda z: (z['priority'], z['max_distance'] -
z['min_distance']))` (line 192).  Python's sort is stable, and a stable sort
by a total key is unique, so this insertion sort computes the same list. -/
def sortConc : List ConcZone → List ConcZone
  | [] => []
  | x :: xs => insertConc x (sortConc xs)

/-- The containment test `z['min_distance'] <= relative_distance <=
z['max_distance']` of line 196, where `relative_distance = √s / R` with
`s = x² + y²` and `RR = R²`.  For `R > 0` the two comparisons are exactly
`minD ≤ 0 ∨ minD²·R² ≤ s` and `0 ≤ maxD ∧ s ≤ maxD²·R²`. -/
def containsPt (s RR : ℚ) (z : ConcZone) : Bool :=
  (decide (z.minD ≤ 0) || decide (z.minD * z.minD * RR ≤ s)) &&
    (decide (0 ≤ z.maxD) && decide (s ≤ z.maxD * z.maxD * RR))

/-- A nearest-fallback candidate's boundary distance (lines 204-207):
`below c` stands for the value `c - relative_distance` (the point is inside
the zone's inner bound `c`) and `above c` for `relative_distance - c` (the
point is beyond the zone's outer bound `c`). -/
inductive Diff where
  | below (c : ℚ) : Diff
  | above (c : ℚ) : Diff
deriving Repr, DecidableEq

/-- The strict comparison `distance_diff < min_distance_diff` of line 211 on
two symbolic boundary distances, with `relative_distance = √s / R`, `RR = R²`
and `R > 0`:

* `below c₁ < below c₂ ⟺ c₁ < c₂` and `above c₁ < above c₂ ⟺ c₂ < c₁`
  (the shared `√s/R` term cancels);
* `below c₁ < above c₂ ⟺ c₁ + c₂ < 2√s/R ⟺ c₁+c₂ < 0 ∨ (c₁+c₂)²·R² < 4s`;
* `above c₁ < below c₂ ⟺ 2√s/R < c₁ + c₂ ⟺ 0 < c₁+c₂ ∧ 4s < (c₁+c₂)²·R²`. -/
def diffLt (s RR : ℚ) : Diff → Diff → Bool
  | Diff.below c1, Diff.below c2 => decide (c1 < c2)
  | Diff.above c1, Diff.above c2 => decide (c2 < c1)
  | Diff.below c1, Diff.above c2 =>
    decide (c1 + c2 < 0) || decide ((c1 + c2) * (c1 + c2) * RR < 4 * s)
  | Diff.above c1, Diff.below c2 =>
    decide (0 < c1 + c2) && decide (4 * s < (c1 + c2) * (c1 + c2) * RR)

/-- Lines 204-209: the boundary distance of a zone that does not contain the
point, or `none` when the zone contains it (`continue`).  For `R > 0`,
`relative_distance < minD ⟺ 0 < minD ∧ s < minD²·R²` and
`maxD < relative_distance ⟺ maxD < 0 ∨ maxD²·R² < s`. -/
def fallbackDiff (s RR : ℚ) (z : ConcZone) : Option Diff :=
  if 0 < z.minD ∧ s < z.minD * z.minD * RR then some (Diff.below z.minD)
  else if z.maxD < 0 ∨ z.maxD * z.maxD * RR < s then some (Diff.above z.maxD)
  else none

/-- One iteration of the nearest-fallback loop (lines 203-213): keep the
strictly smallest boundary distance seen so far (ties keep the earlier
zone). -/
def fallbackStep (s RR : ℚ) (acc : Option (Diff × String)) (z : ConcZone) :
    Option (Diff × String) :=
  match fallbackDiff s RR z with
  | none => acc
  | some d =>
    match acc with
    | none => some (d, z.name)
    | some best => if diffLt s RR d best.1 then some (d, z.name) else some best

/-- Lines 186-215: the concentric-zone classification given the squared
absolute distance `s = x² + y²` and `RR = world_radius²`: sort, return the
first containing zone, otherwise the nearest zone by boundary distance.
`return closest_zone or "Beyond"` treats both `None` and an empty zone name
as falsy. -/
def concClassify (s RR : ℚ) (conc : List ConcZone) : String :=
  let sorted := sortConc conc
  match sorted.find? (containsPt s RR) with
  | some z => z.name
  | none =>
    match sorted.foldl (fallbackStep s RR) none with
    | some best => if best.2 = "" then "Beyond" else best.2
    | none => "Beyond"

/-- `classify_zone_concentric(x, y, zones, world_radius)`
(spatial_analysis.py lines 109-217). -/
def classify_zone_concentric (x y : ℚ) (zones : List Zone) (world_radius : ℚ) :
    String :=
  if zones.isEmpty then "Unknown"
  else
    let rel_x := x / world_radius
    let rel_y := y / world_radius
    let bs := buckets rel_x rel_y (zones.map (effZone world_radius))
    match minByDist2 bs.1 with
    | some closest_positioned => closest_positioned.name
    | none =>
      if bs.2.isEmpty then "Unknown"
      else concClassify (x * x + y * y) (world_radius * world_radius) bs.2

/-- Python `v > 0` applied to a JSON radius value (spatial_analysis.py
line 98): defined for numbers and booleans (`True > 0` is `True`), a
`TypeError` for every other type — the surrounding `try` of
`parse_zone_configuration` catches it and returns the zones collected so
far. -/
def pyGtZero : J → Except Unit Bool
  | J.num q => Except.ok (decide (0 < q))
  | J.bool b => Except.ok b
  | _ => Except.error ()

/-- Python `zone_data.get('material') == 'Plant'`: true exactly for the
string `"Plant"` (`==` across types is `False`, never an error). -/
def isPlant : Option J → Bool
  | some (J.str s) => decide (s = "Plant")
  | _ => false

/-- One iteration of the candidate filter (spatial_analysis.py lines 95-99):
`isinstance(zone_data, dict) and zone_data.get('name')`, then
`zone_data.get('material') == 'Plant' and zone_data.get('radius', 0) > 0`.
Only the radius comparison can raise. -/
def zoneKeep (c : J) : Except Unit Bool :=
  if isObj c && pyTruthyOpt (jGet c "name") then
    if isPlant (jGet c "material") then pyGtZero ((jGet c "radius").getD (J.num 0))
    else Except.ok false
  else Except.ok false

/-- The same filter as a pure predicate (defined for candidates whose radius
test does not raise). -/
def zoneKeepB (c : J) : Bool :=
  isObj c && pyTruthyOpt (jGet c "name") && isPlant (jGet c "material") &&
    (match (jGet c "radius").getD (J.num 0) with
     | J.num q => decide (0 < q)
     | J.bool b => b
     | _ => false)

/-- The candidate loop of lines 94-99 over `metadata['zones']`: append each
kept candidate; a `TypeError` aborts the loop and the surrounding `except`
returns the zones accumulated so far. -/
def collectZonesGo : List J → List J → List J
  | acc, [] => acc
  | acc, c :: cs =>
    match zoneKeep c with
    | Except.error _ => acc
    | Except.ok true => collectZonesGo (acc ++ [c]) cs
    | Except.ok false => collectZonesGo acc cs

/-- The zones kept by `parse_zone_configuration` from the `zones` array of the
extracted metadata. -/
def collectZones (cands : List J) : List J :=
  collectZonesGo [] cands

/-- `parse_zone_configuration` (spatial_analysis.py lines 72-106).  The
filesystem part is abstracted: `zip_file` is the result of
`get_zip_file_from_data_path` (`none` for a falsy result, i.e. the original
archive could not be located) and `metadata_zones` the `zones` array of the
extracted metadata (`[]` when the key is absent). -/
def parse_zone_configuration (zip_file : Option Unit) (metadata_zones : List J) :
    List J :=
  match zip_file with
  | none => []
  | some _ => collectZones metadata_zones

/-- `extract_world_radius` (spatial_analysis.py lines 29-69).  The archive
lookup is abstracted by `zip_file` as above, and the settings scan of lines
47-57 by `simulation_size` (`some v` when a `SimulationSize` setting with
numeric value `v` is found).  A missing archive returns the 750.0 default of
line 39; a missing setting the 1500.0 default of line 65. -/
def extract_world_radius (zip_file : Option Unit) (simulation_size : Option ℚ) :
    ℚ :=
  match zip_file with
  | none => 750
  | some _ =>
    match simulation_size with
    | some v => v
    | none => 1500

/-- `zone_totals[zone] += 1` on a `defaultdict(int)`, preserving Python's
insertion order. -/
def bump : List (String × Nat) → String → List (String × Nat)
  | [], k => [(k, 1)]
  | (k0, n) :: rest, k =>
    if k0 = k then (k0, n + 1) :: rest else (k0, n) :: bump rest k

/-- `sum(zone_totals.values())` (line 292). -/
def sumVals (m : List (String × Nat)) : Nat :=
  (m.map Prod.snd).sum

/-- The numeric value of an extracted coordinate (the loop below only ever
applies it under the hypothesis that the field extracted to a number; a
non-numeric coordinate would crash the Python run with an uncaught
`TypeError` inside `classify_zone_concentric`). -/
def jNumD : Option J → ℚ
  | some (J.num q) => q
  | _ => 0

/-- One iteration of the aggregation loop (spatial_analysis.py lines
265-289), projected onto `zone_totals`: when both `rb2d.px` and `rb2d.py`
extract to a value, classify (line 277 uses `"Unknown"` directly when no
zones were resolved) and increment the zone's total; otherwise skip the
record.  The species bookkeeping of lines 272-286 never affects
`zone_totals` and is not modelled. -/
def spatialStep (zones : List Zone) (world_radius : ℚ)
    (m : List (String × Nat)) (r : J) : List (String × Nat) :=
  let x := extract_field r "rb2d.px"
  let y := extract_field r "rb2d.py"
  if x.isSome && y.isSome then
    bump m
      (if zones.isEmpty then "Unknown"
       else classify_zone_concentric (jNumD x) (jNumD y) zones world_radius)
  else m

/-- The `zone_totals` accumulator after processing every parsed record of the
snapshot. -/
def spatialTotals (zones : List Zone) (world_radius : ℚ) (recs : List J) :
    List (String × Nat) :=
  recs.foldl (spatialStep zones world_radius) []

/-- Scaling a zone's geometry by `k`: zones with relative radii carry no
absolute lengths, so only `radiusIsRelative = false` zones change. -/
def scaleZone (k : ℚ) (z : Zone) : Zone :=
  if z.radiusIsRelative then z
  else
    { z with radius := k * z.radius, insideRadius := k * z.insideRadius,
             posX := k * z.posX, posY := k * z.posY }

/-- The positioned-match test the classifier's partition applies to an
effective zone (lines 141-151): distribution `"Flat"` after the AntiPred
workaround, position away from the origin, and the normalized point within
`radius` of the position (squared form, exact since distances are
nonnegative). -/
def posMatchB (relX relY : ℚ) (e : EffZone) : Bool :=
  decide (e.distribution = "Flat" ∧ ¬(e.posX = 0 ∧ e.posY = 0)) &&
    decide (0 ≤ e.radius ∧ posDist2 relX relY e ≤ e.radius * e.radius)

/-- The claim's own positioned-zone condition, read off the raw zone record
as the claim words it: distribution `"Flat"`, position different from
`(0,0)`, and the normalized point within `radius` of the position (squared
form). -/
def claimPositioned (relX relY : ℚ) (z : Zone) : Bool :=
  decide (z.distribution = "Flat" ∧ ¬(z.posX = 0 ∧ z.posY = 0)) &&
    decide (0 ≤ z.radius ∧
      (relX - z.posX) * (relX - z.posX) + (relY - z.posY) * (relY - z.posY) ≤
        z.radius * z.radius)

/-- The `Core` zone of the end-to-end scenario: a centric disc of relative
radius 0.3. -/
def coreZone : Zone :=
  { name := "Core", radius := 3/10, distribution := "CentricGradual",
    material := "Plant" }

/-- The `Mid` zone of the end-to-end scenario: a ring with insideRadius 0.6
and radius 1.0, i.e. the radial interval [0.6, 1.0]. -/
def midZone : Zone :=
  { name := "Mid", radius := 1, insideRadius := 3/5, distribution := "Ring",
    material := "Plant" }

/-- A positioned sanctuary circle named `AntiPred`: distribution `"Flat"`,
centre (0.5, 0), relative radius 0.2. -/
def antiPredZone : Zone :=
  { name := "AntiPred", radius := 1/5, distribution := "Flat", posX := 1/2 }

/-- An ordinary positioned sanctuary circle: distribution `"Flat"`, centre
(0.5, 0), relative radius 0.2. -/
def sanctuaryZone : Zone :=
  { name := "Sanct", radius := 1/5, distribution := "Flat", posX := 1/2 }

/-- A relative-radius centric disc used by the scale-invariance witness. -/
def disc3Zone : Zone :=
  { name := "Disc3", radius := 1/2, distribution := "CentricGradual" }
lemma extract_go_eq_some_iff (ps : List String) :
    ∀ (d v : J), extract_go d ps = some v ↔ Resolves d ps v := by
  induction ps with
  | nil =>
    intro d v
    constructor
    · intro h
      cases h
      exact Resolves.nil d
    · intro h
      cases h
      rfl
  | cons p ps ih =>
    intro d v
    constructor
    · intro h
      cases d with
      | obj kvs =>
        cases hk : jLookup p kvs with
        | none => simp [extract_go, hk] at h
        | some w =>
          simp only [extract_go, hk] at h
          exact Resolves.cons hk ((ih w v).mp h)
      | null => simp [extract_go] at h
      | bool b => simp [extract_go] at h
      | num q => simp [extract_go] at h
      | str s => simp [extract_go] at h
      | arr xs => simp [extract_go] at h
    · intro h
      cases h with
      | cons hk hrest =>
        simp only [extract_go, hk]
        exact (ih _ _).mpr hrest

/-- C6: `extract_field` returns the addressed value exactly when every segment
of the dotted path resolves through object keys, and `none` (it can never
raise: it is a total function into `Option`) exactly when some segment fails —
the segment hits a non-object node, or the object lacks the key. -/
theorem extract_field_resolves_iff (d : J) (p : String) :
    (∀ v, extract_field d p = some v ↔ Resolves d (p.splitOn ".") v) ∧
      (extract_field d p = none ↔ ∀ v, ¬ Resolves d (p.splitOn ".") v) := by
  constructor
  · intro v
    exact extract_go_eq_some_iff (p.splitOn ".") d v
  · constructor
    · intro h v hres
      have := (extract_go_eq_some_iff (p.splitOn ".") d v).mpr hres
      rw [extract_field] at h
      rw [h] at this
      exact Option.noConfusion this
    · intro h
      cases hx : extract_field d p with
      | none => rfl
      | some v =>
        exact absurd ((extract_go_eq_some_iff (p.splitOn ".") d v).mp hx) (h v)

lemma splitOnAux_ne_nil (s sep : String) (b i j : String.Pos) (r : List String) :
    String.splitOnAux s sep b i j r ≠ [] := by
  induction b, i, j, r using String.splitOnAux.induct s sep with
  | case1 b i j r h =>
    rw [String.splitOnAux.eq_def]
    simp [h]
  | case2 b i j r h1 h2 i' j' h3 ih =>
    rw [String.splitOnAux.eq_def]
    simp only [h1, h2, h3]
    simpa using ih
  | case3 b i j r h1 h2 i' j' h3 ih =>
    rw [String.splitOnAux.eq_def]
    simp only [h1, h2, h3]
    simpa using ih
  | case4 b i j r h1 h2 ih =>
    rw [String.splitOnAux.eq_def]
    simp only [h1, h2]
    simpa using ih

/-- Python's `str.split` (and Lean's `String.splitOn`) never returns an empty
list, so `extract_field` always takes at least one path step. -/
lemma splitOn_ne_nil (s sep : String) : s.splitOn sep ≠ [] := by
  rw [String.splitOn]
  by_cases h : sep = ""
  · simp [h]
  · rw [if_neg (by simpa using h)]
    exact splitOnAux_ne_nil s sep 0 0 0 []

/-- C9: a path step applied to a JSON array yields `none` — array elements are
unreachable through dotted-path extraction, because each segment is looked up
as a string key and string subscription of a Python list raises `TypeError`
(caught and turned into `None`).  Consequently `extract_field` on an array
returns `none` for every dotted path, even a numeric-looking one such as
`"0"`. -/
theorem extract_array_step_none :
    (∀ (xs : List J) (p : String) (ps : List String),
        extract_go (J.arr xs) (p :: ps) = none) ∧
      (∀ (xs : List J) (path : String), extract_field (J.arr xs) path = none) := by
  constructor
  · intro xs p ps
    rfl
  · intro xs path
    rw [extract_field]
    cases hs : path.splitOn "." with
    | nil => exact absurd hs (splitOn_ne_nil path ".")
    | cons p ps => rfl


/-- C1 counterexample: on the end-to-end scenario (organisms at (0,0),
(400,0), (2000,0); zones Core = centric disc [0, 0.3] and Mid = ring
[0.6, 1.0]; world radius 1000) the code does NOT assign
["Core", "Mid", "Mid"]: the organism at (400,0) has relative distance 0.4,
which lies in the coverage gap (0.3, 0.6), and the nearest-fallback picks
Core (boundary distance 0.1) over Mid (boundary distance 0.2). -/
theorem classify_scenario_claim_false :
    [classify_zone_concentric 0 0 [coreZone, midZone] 1000,
      classify_zone_concentric 400 0 [coreZone, midZone] 1000,
      classify_zone_concentric 2000 0 [coreZone, midZone] 1000] ≠
      ["Core", "Mid", "Mid"] := by
  norm_num [classify_zone_concentric, buckets, bucketStep, effZone, coreZone,
    midZone, minByDist2, sortConc, insertConc, concKeyLt, concClassify,
    containsPt, fallbackStep, fallbackDiff, diffLt, posDist2, List.foldl,
    List.find?]
  decide

/-- C1 amended: on the end-to-end scenario the classifier assigns
["Core", "Core", "Mid"] — (0,0) is inside the Core disc, (400,0) falls in
the coverage gap and the nearest-fallback resolves to Core, and (2000,0) is
beyond every zone and the nearest-fallback resolves to Mid. -/
theorem classify_scenario_eval :
    [classify_zone_concentric 0 0 [coreZone, midZone] 1000,
      classify_zone_concentric 400 0 [coreZone, midZone] 1000,
      classify_zone_concentric 2000 0 [coreZone, midZone] 1000] =
      ["Core", "Core", "Mid"] := by
  norm_num [classify_zone_concentric, buckets, bucketStep, effZone, coreZone,
    midZone, minByDist2, sortConc, insertConc, concKeyLt, concClassify,
    containsPt, fallbackStep, fallbackDiff, diffLt, posDist2, List.foldl,
    List.find?]
  decide

/-- C5: when the snapshot's originating archive cannot be located, the
resolver returns an empty zone list and the (750.0) default world radius
instead of failing, and classification with an empty zone list reports
"Unknown" for every organism's coordinates. -/
theorem resolver_missing_archive_defaults (mz : List J) (ss : Option ℚ)
    (x y R : ℚ) :
    parse_zone_configuration none mz = [] ∧
      extract_world_radius none ss = 750 ∧
      classify_zone_concentric x y [] R = "Unknown" :=
  ⟨rfl, rfl, rfl⟩

lemma zoneKeep_eq_ok (c : J) (h : zoneKeep c ≠ Except.error ()) :
    zoneKeep c = Except.ok (zoneKeepB c) := by
  by_cases h1 : (isObj c && pyTruthyOpt (jGet c "name")) = true
  · by_cases h2 : isPlant (jGet c "material") = true
    · cases hv : (jGet c "radius").getD (J.num 0) with
      | num q => simp [zoneKeep, zoneKeepB, h1, h2, hv, pyGtZero]
      | bool b => simp [zoneKeep, zoneKeepB, h1, h2, hv, pyGtZero]
      | null => exact absurd (by simp [zoneKeep, h1, h2, hv, pyGtZero]) h
      | str s => exact absurd (by simp [zoneKeep, h1, h2, hv, pyGtZero]) h
      | arr xs => exact absurd (by simp [zoneKeep, h1, h2, hv, pyGtZero]) h
      | obj kvs => exact absurd (by simp [zoneKeep, h1, h2, hv, pyGtZero]) h
    · simp [zoneKeep, zoneKeepB, h1, h2]
  · simp [zoneKeep, zoneKeepB, h1]

lemma collectZonesGo_eq (cands : List J) :
    ∀ acc, (∀ c ∈ cands, zoneKeep c ≠ Except.error ()) →
      collectZonesGo acc cands = acc ++ cands.filter zoneKeepB := by
  induction cands with
  | nil => intro acc _; simp [collectZonesGo]
  | cons c cs ih =>
    intro acc h
    have hc := zoneKeep_eq_ok c (h c (List.mem_cons_self c cs))
    have hcs : ∀ x ∈ cs, zoneKeep x ≠ Except.error () :=
      fun x hx => h x (List.mem_cons_of_mem c hx)
    by_cases hk : zoneKeepB c = true
    · rw [collectZonesGo]
      rw [hc, hk]
      rw [ih (acc ++ [c]) hcs]
      simp [List.filter, hk]
    · rw [collectZonesGo]
      rw [hc]
      rw [Bool.eq_false_iff.mpr hk]
      rw [ih acc hcs]
      simp [List.filter, Bool.eq_false_iff.mpr hk]

/-- C4 counterexample: a candidate with material "Plant" and radius 1 > 0 but
an empty name is discarded by the resolver (the code additionally requires a
truthy `name`), so "kept iff material = Plant and radius > 0" is false. -/
theorem collectZones_claim_false :
    collectZones
        [J.obj [("name", J.str ""), ("material", J.str "Plant"),
          ("radius", J.num 1)]] = [] ∧
      isPlant (jGet (J.obj [("name", J.str ""), ("material", J.str "Plant"),
        ("radius", J.num 1)]) "material") = true ∧
      (jGet (J.obj [("name", J.str ""), ("material", J.str "Plant"),
        ("radius", J.num 1)]) "radius").getD (J.num 0) = J.num 1 ∧
      (0 : ℚ) < 1 :=
  ⟨rfl, rfl, rfl, by norm_num⟩

/-- C4 amended: provided no candidate aborts the scan with a `TypeError`
(a non-numeric radius on a Plant-named dict), the resolver keeps a candidate
zone in the returned list iff it is a dict with a truthy (present and
non-empty) name, material "Plant", and radius > 0. -/
theorem collectZones_keep_iff (cands : List J)
    (h : ∀ c ∈ cands, zoneKeep c ≠ Except.error ()) :
    collectZones cands = cands.filter zoneKeepB :=
  collectZonesGo_eq cands [] h

/-- Witness for C4's amended theorem: a Plant zone of radius 2 with a real
name is kept; a spawn zone (material "Spawn") is discarded. -/
theorem collectZones_keep_iff_witness :
    collectZones
        [J.obj [("name", J.str "Lush"), ("material", J.str "Plant"),
          ("radius", J.num 2)],
         J.obj [("name", J.str "Nest"), ("material", J.str "Spawn"),
          ("radius", J.num 3)]] =
      [J.obj [("name", J.str "Lush"), ("material", J.str "Plant"),
        ("radius", J.num 2)]] := by
  rw [collectZones_keep_iff]
  · rfl
  · intro c hc
    rcases List.mem_cons.mp hc with h1 | h1
    · subst h1
      intro hcontra
      exact Except.noConfusion (rfl.trans hcontra :
        (Except.ok true : Except Unit Bool) = Except.error ())
    · rcases List.mem_cons.mp h1 with h2 | h2
      · subst h2
        intro hcontra
        exact Except.noConfusion (rfl.trans hcontra :
          (Except.ok false : Except Unit Bool) = Except.error ())
      · exact absurd h2 (List.not_mem_nil c)

lemma sumVals_bump (m : List (String × Nat)) (k : String) :
    sumVals (bump m k) = sumVals m + 1 := by
  induction m with
  | nil => simp [bump, sumVals]
  | cons p rest ih =>
    obtain ⟨k0, n⟩ := p
    by_cases h : k0 = k
    · simp [bump, h, sumVals]
      omega
    · simp only [bump, if_neg h, sumVals, List.map_cons, List.sum_cons] at *
      omega

lemma spatialTotals_go (zones : List Zone) (R : ℚ) (recs : List J) :
    ∀ m, (∀ r ∈ recs, (∃ q, extract_field r "rb2d.px" = some (J.num q)) ∧
        (∃ q, extract_field r "rb2d.py" = some (J.num q))) →
      sumVals (recs.foldl (spatialStep zones R) m) = sumVals m + recs.length := by
  induction recs with
  | nil =>
    intro m _
    simp
  | cons r rs ih =>
    intro m h
    obtain ⟨⟨qx, hx⟩, ⟨qy, hy⟩⟩ := h r (List.mem_cons_self r rs)
    rw [List.foldl_cons]
    rw [ih (spatialStep zones R m r)
      (fun w hw => h w (List.mem_cons_of_mem r hw))]
    have hs : sumVals (spatialStep zones R m r) = sumVals m + 1 := by
      rw [spatialStep]
      simp only [hx, hy, Option.isSome_some, Bool.and_self, if_pos]
      exact sumVals_bump m _
    rw [hs]
    simp only [List.length_cons]
    omega

/-- C7: for a snapshot whose records all parse and carry numeric `rb2d.px`
and `rb2d.py` coordinates, the per-zone totals of the aggregate report sum to
exactly the number of records: every such record bumps exactly one zone
total. -/
theorem spatial_totals_sum (zones : List Zone) (R : ℚ) (recs : List J)
    (h : ∀ r ∈ recs, (∃ q, extract_field r "rb2d.px" = some (J.num q)) ∧
      (∃ q, extract_field r "rb2d.py" = some (J.num q))) :
    sumVals (spatialTotals zones R recs) = recs.length := by
  have := spatialTotals_go zones R recs [] h
  simpa [spatialTotals, sumVals] using this

lemma splitOn_px : "rb2d.px".splitOn "." = ["rb2d", "px"] := by
  rw [String.splitOn, if_neg (by decide)]
  rw [String.splitOnAux.eq_def, if_neg (by decide), if_neg (by decide)]
  rw [String.splitOnAux.eq_def, if_neg (by decide), if_neg (by decide)]
  rw [String.splitOnAux.eq_def, if_neg (by decide), if_neg (by decide)]
  rw [String.splitOnAux.eq_def, if_neg (by decide), if_neg (by decide)]
  rw [String.splitOnAux.eq_def, if_neg (by decide), if_pos (by decide),
    if_pos (by decide)]
  rw [String.splitOnAux.eq_def, if_neg (by decide), if_neg (by decide)]
  rw [String.splitOnAux.eq_def, if_neg (by decide), if_neg (by decide)]
  rw [String.splitOnAux.eq_def, if_pos (by decide)]
  decide

lemma splitOn_py : "rb2d.py".splitOn "." = ["rb2d", "py"] := by
  rw [String.splitOn, if_neg (by decide)]
  rw [String.splitOnAux.eq_def, if_neg (by decide), if_neg (by decide)]
  rw [String.splitOnAux.eq_def, if_neg (by decide), if_neg (by decide)]
  rw [String.splitOnAux.eq_def, if_neg (by decide), if_neg (by decide)]
  rw [String.splitOnAux.eq_def, if_neg (by decide), if_neg (by decide)]
  rw [String.splitOnAux.eq_def, if_neg (by decide), if_pos (by decide),
    if_pos (by decide)]
  rw [String.splitOnAux.eq_def, if_neg (by decide), if_neg (by decide)]
  rw [String.splitOnAux.eq_def, if_neg (by decide), if_neg (by decide)]
  rw [String.splitOnAux.eq_def, if_pos (by decide)]
  decide

/-- Witness for C7: two records with numeric coordinates and no resolved
zones — both bump "Unknown", and the totals sum to 2. -/
theorem spatial_totals_sum_witness :
    sumVals (spatialTotals [] 1
      [J.obj [("rb2d", J.obj [("px", J.num 5), ("py", J.num 7)])],
        J.obj [("rb2d", J.obj [("px", J.num 0), ("py", J.num 0)])]]) = 2 :=
  spatial_totals_sum [] 1 _ (by
    intro r hr
    rcases List.mem_cons.mp hr with h1 | h1
    · subst h1
      refine ⟨⟨5, ?_⟩, ⟨7, ?_⟩⟩
      · rw [extract_field, splitOn_px]; rfl
      · rw [extract_field, splitOn_py]; rfl
    · rcases List.mem_cons.mp h1 with h2 | h2
      · subst h2
        refine ⟨⟨0, ?_⟩, ⟨0, ?_⟩⟩
        · rw [extract_field, splitOn_px]; rfl
        · rw [extract_field, splitOn_py]; rfl
      · exact absurd h2 (List.not_mem_nil r))

lemma buckets_middle_inert (relX relY : ℚ) (e : EffZone)
    (effs1 effs2 : List EffZone)
    (he : ∀ acc, bucketStep relX relY acc e = acc) :
    buckets relX relY (effs1 ++ e :: effs2) =
      buckets relX relY (effs1 ++ effs2) := by
  unfold buckets
  rw [List.foldl_append, List.foldl_append, List.foldl_cons, he]

lemma classify_middle_inert (x y R : ℚ) (zs1 zs2 : List Zone) (z : Zone)
    (hz : ∀ acc, bucketStep (x / R) (y / R) acc (effZone R z) = acc) :
    classify_zone_concentric x y (zs1 ++ z :: zs2) R =
      classify_zone_concentric x y (zs1 ++ zs2) R := by
  by_cases hnil : zs1 ++ zs2 = []
  · obtain ⟨h1, h2⟩ := List.append_eq_nil.mp hnil
    subst h1
    subst h2
    simp only [List.nil_append]
    simp only [classify_zone_concentric, buckets, List.map_cons, List.map_nil,
      List.foldl_cons, List.foldl_nil, hz, List.isEmpty_nil, List.isEmpty_cons,
      if_true, if_false, Bool.false_eq_true]
    rfl
  · have hne1 : (zs1 ++ z :: zs2).isEmpty = false := by
      simp
    have hne2 : (zs1 ++ zs2).isEmpty = false := by
      rw [List.isEmpty_eq_false]
      exact hnil
    simp only [classify_zone_concentric, hne1, hne2, Bool.false_eq_true,
      if_false, List.map_append, List.map_cons]
    rw [buckets_middle_inert _ _ _ _ _ hz]

/-- C3: a ring zone (distribution "Ring" or "FlatRing") whose computed inside
radius `insideRadius * radius` (on the effective, unit-normalized values the
code computes with) is ≥ its outer radius never matches any point and never
appears as a nearest-fallback candidate: classification is unchanged when the
zone is removed from the list. -/
theorem classify_invalid_ring_inert (x y R : ℚ) (zs1 zs2 : List Zone) (z : Zone)
    (hd : (effZone R z).distribution = "Ring" ∨
      (effZone R z).distribution = "FlatRing")
    (hr : (effZone R z).radius ≤ (effZone R z).insideRadius * (effZone R z).radius) :
    classify_zone_concentric x y (zs1 ++ z :: zs2) R =
      classify_zone_concentric x y (zs1 ++ zs2) R := by
  apply classify_middle_inert
  intro acc
  have hnotlt := not_lt.mpr hr
  rcases hd with h | h <;>
    simp [bucketStep, h, hnotlt]

/-- Witness for C3: a ring `[2 · (1/2), 1/2] = [1, 1/2]` with overshooting
inside radius is dropped, so classification of (100,0) with and without it
agrees (both give the Disc zone). -/
theorem classify_invalid_ring_inert_witness :
    classify_zone_concentric 100 0
        ([] ++ { name := "Gap", radius := 1/2, insideRadius := 2,
                 distribution := "Ring" } ::
          [{ name := "Disc", radius := 1, distribution := "CentricGradual" }]) 1000 =
      classify_zone_concentric 100 0
        ([] ++ [{ name := "Disc", radius := 1, distribution := "CentricGradual" }])
        1000 :=
  classify_invalid_ring_inert 100 0 1000 [] _ _
    (by decide) (by norm_num [effZone])

/-- C10: appending a zone with distribution "Flat", position exactly (0,0)
and a name other than "AntiPred" leaves classification unchanged: such a zone
falls through every branch of the partition (not positioned, since its
position is the origin; not concentric, since its distribution is neither
"CentricGradual" nor a ring kind) and can never match any point. -/
theorem classify_flat_origin_inert (x y R : ℚ) (zones : List Zone) (z : Zone)
    (hR : 0 < R) (hd : z.distribution = "Flat") (hpx : z.posX = 0)
    (hpy : z.posY = 0) (hn : z.name ≠ "AntiPred") :
    classify_zone_concentric x y (zones ++ [z]) R =
      classify_zone_concentric x y zones R := by
  have hd' : (effZone R z).distribution = "Flat" := by
    simp [effZone, hd, hn]
  have hex : (effZone R z).posX = 0 := by
    simp [effZone, hpx]
  have hey : (effZone R z).posY = 0 := by
    simp [effZone, hpy]
  have h := classify_middle_inert x y R zones [] z (by
    intro acc
    simp [bucketStep, hd', hex, hey])
  simpa using h

/-- Witness for C10: a "Ghost" Flat zone at the origin changes nothing. -/
theorem classify_flat_origin_inert_witness :
    classify_zone_concentric 100 0
        ([{ name := "Disc2", radius := 1, distribution := "CentricGradual" }] ++
          [{ name := "Ghost", radius := 1/4, distribution := "Flat" }]) 1000 =
      classify_zone_concentric 100 0
        [{ name := "Disc2", radius := 1, distribution := "CentricGradual" }] 1000 :=
  classify_flat_origin_inert 100 0 1000 _ _ (by norm_num) rfl rfl rfl
    (by decide)

lemma bucketStep_fst (relX relY : ℚ) (acc : List PosMatch × List ConcZone)
    (e : EffZone) :
    (bucketStep relX relY acc e).1 =
      if posMatchB relX relY e then
        acc.1 ++ [{ name := e.name, dist2 := posDist2 relX relY e }]
      else acc.1 := by
  unfold bucketStep posMatchB
  by_cases h1 : e.distribution = "Flat" ∧ ¬(e.posX = 0 ∧ e.posY = 0)
  · by_cases h2 : 0 ≤ e.radius ∧ posDist2 relX relY e ≤ e.radius * e.radius
    · simp [h1, h2]
    · simp [h1, h2]
  · have hpmf : ¬((decide (e.distribution = "Flat" ∧ ¬(e.posX = 0 ∧ e.posY = 0)) &&
        decide (0 ≤ e.radius ∧ posDist2 relX relY e ≤ e.radius * e.radius)) = true) := by
      simp only [Bool.and_eq_true, decide_eq_true_eq]
      intro hcontra
      exact h1 hcontra.1
    rw [if_neg h1, if_neg hpmf]
    by_cases h3 : e.distribution = "CentricGradual" ∧ e.posX = 0 ∧ e.posY = 0
    · rw [if_pos h3]
    · rw [if_neg h3]
      by_cases h4 : (e.distribution = "Ring" ∨ e.distribution = "FlatRing") ∧
          e.posX = 0 ∧ e.posY = 0
      · rw [if_pos h4]
        by_cases h5 : e.insideRadius * e.radius < e.radius
        · rw [if_pos h5]
        · rw [if_neg h5]
      · rw [if_neg h4]

lemma buckets_fst (relX relY : ℚ) (effs : List EffZone) :
    ∀ acc : List PosMatch × List ConcZone,
      (effs.foldl (bucketStep relX relY) acc).1 =
        acc.1 ++ (effs.filter (posMatchB relX relY)).map
          (fun e => { name := e.name, dist2 := posDist2 relX relY e }) := by
  induction effs with
  | nil =>
    intro acc
    simp
  | cons e es ih =>
    intro acc
    rw [List.foldl_cons, ih (bucketStep relX relY acc e)]
    by_cases h : posMatchB relX relY e = true
    · rw [List.filter_cons_of_pos h, bucketStep_fst, if_pos h]
      simp
    · rw [List.filter_cons_of_neg (by simpa using h), bucketStep_fst,
        if_neg (by simpa using h)]

lemma foldl_min_mem (ps : List PosMatch) :
    ∀ b : PosMatch,
      ps.foldl (fun best q => if q.dist2 < best.dist2 then q else best) b = b ∨
        ps.foldl (fun best q => if q.dist2 < best.dist2 then q else best) b ∈ ps := by
  induction ps with
  | nil =>
    intro b
    left
    rfl
  | cons p ps ih =>
    intro b
    rw [List.foldl_cons]
    rcases ih (if p.dist2 < b.dist2 then p else b) with h | h
    · rw [h]
      by_cases hc : p.dist2 < b.dist2
      · rw [if_pos hc]
        right
        exact List.mem_cons_self p ps
      · rw [if_neg hc]
        left
        rfl
    · right
      exact List.mem_cons_of_mem p h

lemma foldl_min_le (ps : List PosMatch) :
    ∀ b : PosMatch,
      (ps.foldl (fun best q => if q.dist2 < best.dist2 then q else best) b).dist2 ≤
          b.dist2 ∧
        ∀ q ∈ ps,
          (ps.foldl (fun best q => if q.dist2 < best.dist2 then q else best) b).dist2 ≤
            q.dist2 := by
  induction ps with
  | nil =>
    intro b
    exact ⟨le_refl _, by simp⟩
  | cons p ps ih =>
    intro b
    rw [List.foldl_cons]
    obtain ⟨h1, h2⟩ := ih (if p.dist2 < b.dist2 then p else b)
    have hstep : (if p.dist2 < b.dist2 then p else b).dist2 ≤ b.dist2 := by
      by_cases hc : p.dist2 < b.dist2
      · rw [if_pos hc]
        exact le_of_lt hc
      · rw [if_neg hc]
    have hstepp : (if p.dist2 < b.dist2 then p else b).dist2 ≤ p.dist2 := by
      by_cases hc : p.dist2 < b.dist2
      · rw [if_pos hc]
      · rw [if_neg hc]
        exact not_lt.mp hc
    refine ⟨le_trans h1 hstep, ?_⟩
    intro q hq
    rcases List.mem_cons.mp hq with rfl | hq'
    · exact le_trans h1 hstepp
    · exact h2 q hq'

lemma minByDist2_spec (l : List PosMatch) (hne : l ≠ []) :
    ∃ p, minByDist2 l = some p ∧ p ∈ l ∧ ∀ q ∈ l, p.dist2 ≤ q.dist2 := by
  cases l with
  | nil => exact absurd rfl hne
  | cons b ps =>
    refine ⟨_, rfl, ?_, ?_⟩
    · rcases foldl_min_mem ps b with h | h
      · rw [h]
        exact List.mem_cons_self b ps
      · exact List.mem_cons_of_mem b h
    · intro q hq
      rcases List.mem_cons.mp hq with hqb | hq'
      · rw [hqb]
        exact (foldl_min_le ps b).1
      · exact (foldl_min_le ps b).2 q hq'

/-- C2 counterexample: the zone named "AntiPred" with distribution "Flat" and
centre (0.5, 0) satisfies the claim's positioned-zone condition at (500,0)
with world radius 1000 (it contains the normalized point (0.5, 0)), yet the
classifier returns "Unknown", not its name: the AntiPred workaround rewrites
its distribution to "CentricGradual" before the partition, and a
CentricGradual zone away from the origin matches no branch at all. -/
theorem classify_antipred_positioned_dropped :
    claimPositioned (500 / 1000) (0 / 1000) antiPredZone = true ∧
      classify_zone_concentric 500 0 [antiPredZone] 1000 = "Unknown" ∧
      "Unknown" ≠ antiPredZone.name := by
  refine ⟨?_, ?_, ?_⟩
  · norm_num [claimPositioned, antiPredZone]
  · norm_num [classify_zone_concentric, buckets, bucketStep, effZone,
      antiPredZone, minByDist2, concClassify, sortConc, insertConc, concKeyLt,
      containsPt, fallbackStep, fallbackDiff, diffLt, posDist2, List.foldl,
      List.find?]
    decide
  · decide

/-- C2 amended: if at least one zone that the classifier's partition treats as
positioned — distribution "Flat" after the AntiPred workaround (so not a zone
named "AntiPred"), normalized position away from (0,0) — contains the
normalized point within its radius, then classify returns the name of such a
zone whose centre is closest to the point, and a concentric zone's membership
is never consulted. -/
theorem classify_positioned_priority (x y R : ℚ) (zones : List Zone)
    (hR : 0 < R)
    (hex : ∃ z ∈ zones, posMatchB (x / R) (y / R) (effZone R z) = true) :
    ∃ z ∈ zones, posMatchB (x / R) (y / R) (effZone R z) = true ∧
      classify_zone_concentric x y zones R = z.name ∧
      ∀ w ∈ zones, posMatchB (x / R) (y / R) (effZone R w) = true →
        posDist2 (x / R) (y / R) (effZone R z) ≤
          posDist2 (x / R) (y / R) (effZone R w) := by
  obtain ⟨z0, hz0, hm0⟩ := hex
  have hfst : (buckets (x / R) (y / R) (zones.map (effZone R))).1 =
      ((zones.map (effZone R)).filter (posMatchB (x / R) (y / R))).map
        (fun e => { name := e.name, dist2 := posDist2 (x / R) (y / R) e }) := by
    have := buckets_fst (x / R) (y / R) (zones.map (effZone R)) ([], [])
    simpa [buckets] using this
  have hmem0 : effZone R z0 ∈
      (zones.map (effZone R)).filter (posMatchB (x / R) (y / R)) :=
    List.mem_filter.mpr ⟨List.mem_map_of_mem _ hz0, hm0⟩
  have hne : ((zones.map (effZone R)).filter (posMatchB (x / R) (y / R))).map
      (fun e => ({ name := e.name, dist2 := posDist2 (x / R) (y / R) e } :
        PosMatch)) ≠ [] := by
    intro hcontra
    rw [List.map_eq_nil_iff] at hcontra
    rw [hcontra] at hmem0
    exact List.not_mem_nil _ hmem0
  obtain ⟨p, hpeq, hpmem, hpmin⟩ := minByDist2_spec _ hne
  obtain ⟨e, hemem, heeq⟩ := List.mem_map.mp hpmem
  obtain ⟨heeffs, hepm⟩ := List.mem_filter.mp hemem
  obtain ⟨z, hzmem, hzeq⟩ := List.mem_map.mp heeffs
  have hnz : zones.isEmpty = false :=
    List.isEmpty_eq_false.mpr (List.ne_nil_of_mem hzmem)
  refine ⟨z, hzmem, ?_, ?_, ?_⟩
  · rw [hzeq]
    exact hepm
  · simp only [classify_zone_concentric, hnz, Bool.false_eq_true, if_false]
    rw [hfst, hpeq]
    rw [← heeq, ← hzeq]
    rfl
  · intro w hw hwpm
    have hwmem := List.mem_map_of_mem
      (fun e => ({ name := e.name, dist2 := posDist2 (x / R) (y / R) e } :
        PosMatch))
      (List.mem_filter.mpr ⟨List.mem_map_of_mem (effZone R) hw, hwpm⟩)
    have hle := hpmin _ hwmem
    rw [← heeq] at hle
    rw [hzeq]
    exact hle

/-- Witness for C2's amended theorem: the "Sanct" zone at (0.5, 0) with
radius 0.2 contains the normalized point (0.5, 0), and classification at
(500, 0) with world radius 1000 returns its name. -/
theorem classify_positioned_priority_witness :
    ∃ z ∈ [sanctuaryZone],
      posMatchB (500 / 1000) (0 / 1000) (effZone 1000 z) = true ∧
        classify_zone_concentric 500 0 [sanctuaryZone] 1000 = z.name ∧
        ∀ w ∈ [sanctuaryZone],
          posMatchB (500 / 1000) (0 / 1000) (effZone 1000 w) = true →
            posDist2 (500 / 1000) (0 / 1000) (effZone 1000 z) ≤
              posDist2 (500 / 1000) (0 / 1000) (effZone 1000 w) :=
  classify_positioned_priority 500 0 1000 [sanctuaryZone] (by norm_num)
    ⟨sanctuaryZone, List.mem_singleton.mpr rfl, by
      norm_num [posMatchB, effZone, posDist2, sanctuaryZone]
      decide⟩

lemma mul_le_mul_left_iff_own (c a b : ℚ) (hc : 0 < c) :
    c * a ≤ c * b ↔ a ≤ b := by
  constructor
  · intro h
    nlinarith
  · intro h
    nlinarith

lemma mul_lt_mul_left_iff_own (c a b : ℚ) (hc : 0 < c) :
    c * a < c * b ↔ a < b := by
  constructor
  · intro h
    nlinarith
  · intro h
    nlinarith

lemma effZone_scale (k R : ℚ) (hk : k ≠ 0) (z : Zone) :
    effZone (k * R) (scaleZone k z) = effZone R z := by
  unfold effZone scaleZone
  by_cases hrel : z.radiusIsRelative
  · simp [hrel]
  · simp only [hrel, Bool.false_eq_true, if_false]
    simp [mul_div_mul_left _ _ hk]

lemma containsPt_scale (c s RR : ℚ) (hc : 0 < c) (z : ConcZone) :
    containsPt (c * s) (c * RR) z = containsPt s RR z := by
  unfold containsPt
  have h1 : z.minD * z.minD * (c * RR) ≤ c * s ↔ z.minD * z.minD * RR ≤ s := by
    rw [show z.minD * z.minD * (c * RR) = c * (z.minD * z.minD * RR) by ring]
    exact mul_le_mul_left_iff_own c _ s hc
  have h2 : c * s ≤ z.maxD * z.maxD * (c * RR) ↔ s ≤ z.maxD * z.maxD * RR := by
    rw [show z.maxD * z.maxD * (c * RR) = c * (z.maxD * z.maxD * RR) by ring]
    exact mul_le_mul_left_iff_own c s _ hc
  simp only [h1, h2]

lemma fallbackDiff_scale (c s RR : ℚ) (hc : 0 < c) (z : ConcZone) :
    fallbackDiff (c * s) (c * RR) z = fallbackDiff s RR z := by
  unfold fallbackDiff
  have h1 : c * s < z.minD * z.minD * (c * RR) ↔ s < z.minD * z.minD * RR := by
    rw [show z.minD * z.minD * (c * RR) = c * (z.minD * z.minD * RR) by ring]
    exact mul_lt_mul_left_iff_own c s _ hc
  have h2 : z.maxD * z.maxD * (c * RR) < c * s ↔ z.maxD * z.maxD * RR < s := by
    rw [show z.maxD * z.maxD * (c * RR) = c * (z.maxD * z.maxD * RR) by ring]
    exact mul_lt_mul_left_iff_own c _ s hc
  simp only [h1, h2]

lemma diffLt_scale (c s RR : ℚ) (hc : 0 < c) (d1 d2 : Diff) :
    diffLt (c * s) (c * RR) d1 d2 = diffLt s RR d1 d2 := by
  cases d1 with
  | below c1 =>
    cases d2 with
    | below c2 => rfl
    | above c2 =>
      unfold diffLt
      have h : (c1 + c2) * (c1 + c2) * (c * RR) < 4 * (c * s) ↔
          (c1 + c2) * (c1 + c2) * RR < 4 * s := by
        rw [show (c1 + c2) * (c1 + c2) * (c * RR) =
          c * ((c1 + c2) * (c1 + c2) * RR) by ring]
        rw [show 4 * (c * s) = c * (4 * s) by ring]
        exact mul_lt_mul_left_iff_own c _ _ hc
      simp only [h]
  | above c1 =>
    cases d2 with
    | below c2 =>
      unfold diffLt
      have h : 4 * (c * s) < (c1 + c2) * (c1 + c2) * (c * RR) ↔
          4 * s < (c1 + c2) * (c1 + c2) * RR := by
        rw [show (c1 + c2) * (c1 + c2) * (c * RR) =
          c * ((c1 + c2) * (c1 + c2) * RR) by ring]
        rw [show 4 * (c * s) = c * (4 * s) by ring]
        exact mul_lt_mul_left_iff_own c _ _ hc
      simp only [h]
    | above c2 => rfl

lemma fallbackStep_scale (c s RR : ℚ) (hc : 0 < c) (acc : Option (Diff × String))
    (z : ConcZone) :
    fallbackStep (c * s) (c * RR) acc z = fallbackStep s RR acc z := by
  unfold fallbackStep
  rw [fallbackDiff_scale c s RR hc]
  cases fallbackDiff s RR z with
  | none => rfl
  | some d =>
    cases acc with
    | none => rfl
    | some best =>
      dsimp only
      rw [diffLt_scale c s RR hc]

lemma findB_congr {α : Type} (p q : α → Bool) (l : List α)
    (h : ∀ a ∈ l, p a = q a) : l.find? p = l.find? q := by
  induction l with
  | nil => rfl
  | cons a l ih =>
    rw [List.find?_cons, List.find?_cons, h a (List.mem_cons_self a l)]
    cases q a with
    | true => rfl
    | false => exact ih (fun b hb => h b (List.mem_cons_of_mem a hb))

lemma foldl_ext_own {α β : Type} (f g : β → α → β) (l : List α)
    (h : ∀ acc a, f acc a = g acc a) : ∀ b, l.foldl f b = l.foldl g b := by
  induction l with
  | nil => intro b; rfl
  | cons a l ih =>
    intro b
    rw [List.foldl_cons, List.foldl_cons, h b a]
    exact ih (g b a)

lemma concClassify_scale (c s RR : ℚ) (hc : 0 < c) (conc : List ConcZone) :
    concClassify (c * s) (c * RR) conc = concClassify s RR conc := by
  simp only [concClassify]
  rw [findB_congr (containsPt (c * s) (c * RR)) (containsPt s RR) (sortConc conc)
    (fun z _ => containsPt_scale c s RR hc z)]
  rw [foldl_ext_own (fallbackStep (c * s) (c * RR)) (fallbackStep s RR)
    (sortConc conc) (fun acc z => fallbackStep_scale c s RR hc acc z) none]

/-- C8: scaling the point, the world radius and the absolute zone geometry by
the same positive factor leaves the classification unchanged, and zones whose
radii are relative are untouched by the scaling: every comparison the
classifier makes happens in the normalized space, where the factor cancels. -/
theorem classify_scale_invariant (x y R k : ℚ) (zones : List Zone)
    (hR : 0 < R) (hk : 0 < k) :
    classify_zone_concentric (k * x) (k * y) (zones.map (scaleZone k)) (k * R) =
        classify_zone_concentric x y zones R ∧
      ∀ z ∈ zones, z.radiusIsRelative = true → scaleZone k z = z := by
  constructor
  · have hmap : (zones.map (scaleZone k)).map (effZone (k * R)) =
        zones.map (effZone R) := by
      rw [List.map_map]
      exact List.map_congr_left
        (fun z _ => effZone_scale k R (ne_of_gt hk) z)
    have hrelx : k * x / (k * R) = x / R := mul_div_mul_left x R (ne_of_gt hk)
    have hrely : k * y / (k * R) = y / R := mul_div_mul_left y R (ne_of_gt hk)
    have hempty : (zones.map (scaleZone k)).isEmpty = zones.isEmpty := by
      cases zones with
      | nil => rfl
      | cons z zs => rfl
    have hs : k * x * (k * x) + k * y * (k * y) = k * k * (x * x + y * y) := by
      ring
    have hRR : k * R * (k * R) = k * k * (R * R) := by
      ring
    simp only [classify_zone_concentric, hmap, hrelx, hrely, hempty, hs, hRR]
    cases hzemp : zones.isEmpty with
    | true => simp
    | false =>
      simp only [Bool.false_eq_true, if_false]
      cases hmin : minByDist2 (buckets (x / R) (y / R) (zones.map (effZone R))).1 with
      | some p => simp [hmin]
      | none =>
        simp only [hmin]
        cases hc2 : (buckets (x / R) (y / R) (zones.map (effZone R))).2.isEmpty with
        | true => simp [hc2]
        | false =>
          simp only [hc2, Bool.false_eq_true, if_false]
          exact concClassify_scale (k * k) (x * x + y * y) (R * R)
            (mul_pos hk hk) _
  · intro z _ hrel
    unfold scaleZone
    rw [if_pos hrel]

/-- Witness for C8: doubling the point (400,0), the world radius 1000 and the
(relative-radius) disc zone leaves the classification unchanged, and the
relative zone itself is unchanged by scaling. -/
theorem classify_scale_invariant_witness :
    (classify_zone_concentric (2 * 400) (2 * 0) ([disc3Zone].map (scaleZone 2))
        (2 * 1000) =
      classify_zone_concentric 400 0 [disc3Zone] 1000) ∧
      ∀ z ∈ [disc3Zone], z.radiusIsRelative = true → scaleZone 2 z = z :=
  classify_scale_invariant 400 0 1000 2 [disc3Zone] (by norm_num) (by norm_num)


/-!
Bridge lemmas: the rational square-comparison encodings used by the
classifier's embedding are exactly the source's real-valued `math.sqrt`
comparisons.  Throughout, `s` is the squared distance and
`relative_distance = √s / R` for a positive world radius `R`.
-/
lemma real_sqrt_le_iff (a r : ℝ) (ha : 0 ≤ a) :
    Real.sqrt a ≤ r ↔ 0 ≤ r ∧ a ≤ r * r := by
  constructor
  · intro h
    have h0 : 0 ≤ r := le_trans (Real.sqrt_nonneg a) h
    refine ⟨h0, ?_⟩
    have hm := mul_self_le_mul_self (Real.sqrt_nonneg a) h
    rwa [Real.mul_self_sqrt ha] at hm
  · rintro ⟨h0, h⟩
    calc Real.sqrt a ≤ Real.sqrt (r * r) := Real.sqrt_le_sqrt h
      _ = r := Real.sqrt_mul_self h0

lemma real_le_sqrt_iff (c a : ℝ) (ha : 0 ≤ a) :
    c ≤ Real.sqrt a ↔ c ≤ 0 ∨ c * c ≤ a := by
  constructor
  · intro h
    rcases le_or_lt c 0 with hc | hc
    · exact Or.inl hc
    · right
      have hm := mul_self_le_mul_self (le_of_lt hc) h
      rwa [Real.mul_self_sqrt ha] at hm
  · intro h
    rcases h with h | h
    · exact le_trans h (Real.sqrt_nonneg a)
    · rcases le_or_lt c 0 with hc | hc
      · exact le_trans hc (Real.sqrt_nonneg a)
      · calc c = Real.sqrt (c * c) := (Real.sqrt_mul_self (le_of_lt hc)).symm
          _ ≤ Real.sqrt a := Real.sqrt_le_sqrt h

lemma real_sqrt_lt_iff (a r : ℝ) (ha : 0 ≤ a) :
    Real.sqrt a < r ↔ 0 < r ∧ a < r * r := by
  constructor
  · intro h
    have h0 : 0 < r := lt_of_le_of_lt (Real.sqrt_nonneg a) h
    refine ⟨h0, ?_⟩
    have hm := mul_self_lt_mul_self (Real.sqrt_nonneg a) h
    rwa [Real.mul_self_sqrt ha] at hm
  · rintro ⟨h0, h⟩
    calc Real.sqrt a < Real.sqrt (r * r) := Real.sqrt_lt_sqrt ha h
      _ = r := Real.sqrt_mul_self (le_of_lt h0)

lemma real_lt_sqrt_iff (c a : ℝ) (ha : 0 ≤ a) :
    c < Real.sqrt a ↔ c < 0 ∨ c * c < a := by
  constructor
  · intro h
    rcases lt_or_le c 0 with hc | hc
    · exact Or.inl hc
    · right
      have hm := mul_self_lt_mul_self hc h
      rwa [Real.mul_self_sqrt ha] at hm
  · intro h
    rcases h with h | h
    · exact lt_of_lt_of_le h (Real.sqrt_nonneg a)
    · rcases lt_or_le c 0 with hc | hc
      · exact lt_of_lt_of_le hc (Real.sqrt_nonneg a)
      · calc c = Real.sqrt (c * c) := (Real.sqrt_mul_self hc).symm
          _ < Real.sqrt a := Real.sqrt_lt_sqrt (mul_self_nonneg c) h

lemma minD_le_rd_iff (m s R : ℚ) (hR : 0 < R) (hs : 0 ≤ s) :
    (m ≤ 0 ∨ m * m * (R * R) ≤ s) ↔
      (m : ℝ) ≤ Real.sqrt (s : ℝ) / (R : ℝ) := by
  have hR' : (0 : ℝ) < (R : ℝ) := by exact_mod_cast hR
  have hs' : (0 : ℝ) ≤ (s : ℝ) := by exact_mod_cast hs
  rw [le_div_iff₀ hR', real_le_sqrt_iff _ _ hs']
  constructor
  · rintro (h | h)
    · left
      have hm : (m : ℝ) ≤ 0 := by exact_mod_cast h
      nlinarith
    · right
      have h2 : ((m * m * (R * R) : ℚ) : ℝ) ≤ (s : ℝ) := by exact_mod_cast h
      push_cast at h2
      nlinarith
  · rintro (h | h)
    · left
      by_contra hc
      push_neg at hc
      have hm : (0 : ℝ) < (m : ℝ) := by exact_mod_cast hc
      nlinarith
    · right
      have h2 : (m : ℝ) * (m : ℝ) * ((R : ℝ) * (R : ℝ)) ≤ (s : ℝ) := by nlinarith
      exact_mod_cast h2

lemma rd_le_maxD_iff (m s R : ℚ) (hR : 0 < R) (hs : 0 ≤ s) :
    (0 ≤ m ∧ s ≤ m * m * (R * R)) ↔
      Real.sqrt (s : ℝ) / (R : ℝ) ≤ (m : ℝ) := by
  have hR' : (0 : ℝ) < (R : ℝ) := by exact_mod_cast hR
  have hs' : (0 : ℝ) ≤ (s : ℝ) := by exact_mod_cast hs
  rw [div_le_iff₀ hR', real_sqrt_le_iff _ _ hs']
  constructor
  · rintro ⟨h1, h2⟩
    have hm : (0 : ℝ) ≤ (m : ℝ) := by exact_mod_cast h1
    have h2' : (s : ℝ) ≤ ((m * m * (R * R) : ℚ) : ℝ) := by exact_mod_cast h2
    push_cast at h2'
    constructor
    · nlinarith
    · nlinarith
  · rintro ⟨h1, h2⟩
    constructor
    · by_contra hc
      push_neg at hc
      have hm : (m : ℝ) < 0 := by exact_mod_cast hc
      nlinarith
    · have h2' : (s : ℝ) ≤ (m : ℝ) * (m : ℝ) * ((R : ℝ) * (R : ℝ)) := by nlinarith
      exact_mod_cast h2'

lemma rd_lt_minD_iff (m s R : ℚ) (hR : 0 < R) (hs : 0 ≤ s) :
    (0 < m ∧ s < m * m * (R * R)) ↔
      Real.sqrt (s : ℝ) / (R : ℝ) < (m : ℝ) := by
  have hR' : (0 : ℝ) < (R : ℝ) := by exact_mod_cast hR
  have hs' : (0 : ℝ) ≤ (s : ℝ) := by exact_mod_cast hs
  rw [div_lt_iff₀ hR', real_sqrt_lt_iff _ _ hs']
  constructor
  · rintro ⟨h1, h2⟩
    have hm : (0 : ℝ) < (m : ℝ) := by exact_mod_cast h1
    have h2' : (s : ℝ) < ((m * m * (R * R) : ℚ) : ℝ) := by exact_mod_cast h2
    push_cast at h2'
    constructor
    · nlinarith
    · nlinarith
  · rintro ⟨h1, h2⟩
    constructor
    · by_contra hc
      push_neg at hc
      have hm : (m : ℝ) ≤ 0 := by exact_mod_cast hc
      nlinarith
    · have h2' : (s : ℝ) < (m : ℝ) * (m : ℝ) * ((R : ℝ) * (R : ℝ)) := by nlinarith
      exact_mod_cast h2'

lemma maxD_lt_rd_iff (m s R : ℚ) (hR : 0 < R) (hs : 0 ≤ s) :
    (m < 0 ∨ m * m * (R * R) < s) ↔
      (m : ℝ) < Real.sqrt (s : ℝ) / (R : ℝ) := by
  have hR' : (0 : ℝ) < (R : ℝ) := by exact_mod_cast hR
  have hs' : (0 : ℝ) ≤ (s : ℝ) := by exact_mod_cast hs
  rw [lt_div_iff₀ hR', real_lt_sqrt_iff _ _ hs']
  constructor
  · rintro (h | h)
    · left
      have hm : (m : ℝ) < 0 := by exact_mod_cast h
      nlinarith
    · right
      have h2 : ((m * m * (R * R) : ℚ) : ℝ) < (s : ℝ) := by exact_mod_cast h
      push_cast at h2
      nlinarith
  · rintro (h | h)
    · left
      by_contra hc
      push_neg at hc
      have hm : (0 : ℝ) ≤ (m : ℝ) := by exact_mod_cast hc
      nlinarith
    · right
      have h2 : (m : ℝ) * (m : ℝ) * ((R : ℝ) * (R : ℝ)) < (s : ℝ) := by nlinarith
      exact_mod_cast h2

lemma lt_two_rd_iff (t s R : ℚ) (hR : 0 < R) (hs : 0 ≤ s) :
    (t < 0 ∨ t * t * (R * R) < 4 * s) ↔
      (t : ℝ) < 2 * (Real.sqrt (s : ℝ) / (R : ℝ)) := by
  have hR' : (0 : ℝ) < (R : ℝ) := by exact_mod_cast hR
  have hs' : (0 : ℝ) ≤ (s : ℝ) := by exact_mod_cast hs
  have hrw : (2 : ℝ) * (Real.sqrt (s : ℝ) / (R : ℝ)) =
      Real.sqrt (s : ℝ) / ((R : ℝ) / 2) := by
    field_simp
    ring
  rw [hrw, lt_div_iff₀ (by positivity), real_lt_sqrt_iff _ _ hs']
  constructor
  · rintro (h | h)
    · left
      have hm : (t : ℝ) < 0 := by exact_mod_cast h
      nlinarith
    · right
      have h2 : ((t * t * (R * R) : ℚ) : ℝ) < ((4 * s : ℚ) : ℝ) := by exact_mod_cast h
      push_cast at h2
      nlinarith
  · rintro (h | h)
    · left
      by_contra hc
      push_neg at hc
      have hm : (0 : ℝ) ≤ (t : ℝ) := by exact_mod_cast hc
      nlinarith
    · right
      have h2 : (t : ℝ) * (t : ℝ) * ((R : ℝ) * (R : ℝ)) < 4 * (s : ℝ) := by nlinarith
      exact_mod_cast h2

lemma two_rd_lt_iff (t s R : ℚ) (hR : 0 < R) (hs : 0 ≤ s) :
    (0 < t ∧ 4 * s < t * t * (R * R)) ↔
      2 * (Real.sqrt (s : ℝ) / (R : ℝ)) < (t : ℝ) := by
  have hR' : (0 : ℝ) < (R : ℝ) := by exact_mod_cast hR
  have hs' : (0 : ℝ) ≤ (s : ℝ) := by exact_mod_cast hs
  have hrw : (2 : ℝ) * (Real.sqrt (s : ℝ) / (R : ℝ)) =
      Real.sqrt (s : ℝ) / ((R : ℝ) / 2) := by
    field_simp
    ring
  rw [hrw, div_lt_iff₀ (by positivity), real_sqrt_lt_iff _ _ hs']
  constructor
  · rintro ⟨h1, h2⟩
    have hm : (0 : ℝ) < (t : ℝ) := by exact_mod_cast h1
    have h2' : ((4 * s : ℚ) : ℝ) < ((t * t * (R * R) : ℚ) : ℝ) := by exact_mod_cast h2
    push_cast at h2'
    constructor
    · nlinarith
    · nlinarith
  · rintro ⟨h1, h2⟩
    constructor
    · by_contra hc
      push_neg at hc
      have hm : (t : ℝ) ≤ 0 := by exact_mod_cast hc
      nlinarith
    · have h2' : 4 * (s : ℝ) < (t : ℝ) * (t : ℝ) * ((R : ℝ) * (R : ℝ)) := by nlinarith
      exact_mod_cast h2'

/-- The positioned-zone radius test of line 146: the embedded squared test is
exactly `math.sqrt(zone_distance²) <= radius`. -/
theorem positioned_test_iff_real (d2 r : ℚ) (hd2 : 0 ≤ d2) :
    (0 ≤ r ∧ d2 ≤ r * r) ↔ Real.sqrt (d2 : ℝ) ≤ (r : ℝ) := by
  rw [real_sqrt_le_iff _ _ (by exact_mod_cast hd2)]
  constructor
  · rintro ⟨h1, h2⟩
    refine ⟨by exact_mod_cast h1, ?_⟩
    have h2' : ((d2 : ℚ) : ℝ) ≤ ((r * r : ℚ) : ℝ) := by exact_mod_cast h2
    push_cast at h2'
    exact h2'
  · rintro ⟨h1, h2⟩
    refine ⟨by exact_mod_cast h1, ?_⟩
    have h2' : (d2 : ℝ) ≤ ((r * r : ℚ) : ℝ) := by push_cast; exact h2
    exact_mod_cast h2'

/-- Python's min-by-distance over positioned matches agrees with min by the
stored squared distances: `√` is strictly monotone on nonnegatives. -/
theorem dist2_lt_iff_real (a b : ℚ) (ha : 0 ≤ a) (hb : 0 ≤ b) :
    a < b ↔ Real.sqrt (a : ℝ) < Real.sqrt (b : ℝ) := by
  constructor
  · intro h
    exact Real.sqrt_lt_sqrt (by exact_mod_cast ha) (by exact_mod_cast h)
  · intro h
    by_contra hc
    push_neg at hc
    have := Real.sqrt_le_sqrt ((Rat.cast_le (K := ℝ)).mpr hc)
    linarith

/-- The containment test of line 196 in its source form: with
`relative_distance = √s / R`, `containsPt s R²` decides
`minD ≤ relative_distance ≤ maxD` exactly. -/
theorem containsPt_iff_real (s R : ℚ) (z : ConcZone) (hR : 0 < R) (hs : 0 ≤ s) :
    containsPt s (R * R) z = true ↔
      ((z.minD : ℝ) ≤ Real.sqrt (s : ℝ) / (R : ℝ) ∧
        Real.sqrt (s : ℝ) / (R : ℝ) ≤ (z.maxD : ℝ)) := by
  unfold containsPt
  simp only [Bool.and_eq_true, Bool.or_eq_true, decide_eq_true_eq]
  rw [minD_le_rd_iff _ _ _ hR hs, rd_le_maxD_iff _ _ _ hR hs]

/-- The boundary-distance computation of lines 204-209 in its source form:
the embedded rational tests choose exactly the branch the source chooses for
`relative_distance = √s / R`. -/
theorem fallbackDiff_eq_real (s R : ℚ) (z : ConcZone) (hR : 0 < R) (hs : 0 ≤ s) :
    fallbackDiff s (R * R) z =
      (if Real.sqrt (s : ℝ) / (R : ℝ) < (z.minD : ℝ) then some (Diff.below z.minD)
       else if (z.maxD : ℝ) < Real.sqrt (s : ℝ) / (R : ℝ) then
         some (Diff.above z.maxD)
       else none) := by
  unfold fallbackDiff
  exact if_congr (rd_lt_minD_iff _ _ _ hR hs) rfl
    (if_congr (maxD_lt_rd_iff _ _ _ hR hs) rfl rfl)

/-- The strict comparison of boundary distances at line 211 in its source
form: `diffLt` decides `d₁ < d₂` for the real values the `Diff` entries stand
for (`below c = c - √s/R`, `above c = √s/R - c`). -/
theorem diffLt_iff_real (s R c1 c2 : ℚ) (hR : 0 < R) (hs : 0 ≤ s) :
    (diffLt s (R * R) (Diff.below c1) (Diff.below c2) = true ↔
        (c1 : ℝ) - Real.sqrt (s : ℝ) / (R : ℝ) <
          (c2 : ℝ) - Real.sqrt (s : ℝ) / (R : ℝ)) ∧
      (diffLt s (R * R) (Diff.above c1) (Diff.above c2) = true ↔
        Real.sqrt (s : ℝ) / (R : ℝ) - (c1 : ℝ) <
          Real.sqrt (s : ℝ) / (R : ℝ) - (c2 : ℝ)) ∧
      (diffLt s (R * R) (Diff.below c1) (Diff.above c2) = true ↔
        (c1 : ℝ) - Real.sqrt (s : ℝ) / (R : ℝ) <
          Real.sqrt (s : ℝ) / (R : ℝ) - (c2 : ℝ)) ∧
      (diffLt s (R * R) (Diff.above c1) (Diff.below c2) = true ↔
        Real.sqrt (s : ℝ) / (R : ℝ) - (c1 : ℝ) <
          (c2 : ℝ) - Real.sqrt (s : ℝ) / (R : ℝ)) := by
  refine ⟨?_, ?_, ?_, ?_⟩
  · simp only [diffLt, decide_eq_true_eq, sub_lt_sub_iff_right, Rat.cast_lt]
  · simp only [diffLt, decide_eq_true_eq, sub_lt_sub_iff_left, Rat.cast_lt]
  · simp only [diffLt, Bool.or_eq_true, decide_eq_true_eq]
    rw [lt_two_rd_iff (c1 + c2) s R hR hs]
    push_cast
    constructor
    · intro h
      linarith
    · intro h
      linarith
  · simp only [diffLt, Bool.and_eq_true, decide_eq_true_eq]
    rw [two_rd_lt_iff (c1 + c2) s R hR hs]
    push_cast
    constructor
    · intro h
      linarith
    · intro h
      linarith


/-!
The sort model: `sortConc` is a stable sort by the key
`(priority, max_distance - min_distance)`, hence computes exactly what
Python's stable `list.sort(key=...)` computes at line 192.  The three
theorems below pin this down: the output is a permutation of the input
(`sortConc_perm`), it is sorted by the key (`sortConc_sorted`), and elements
with equal keys keep their original relative order (`sortConc_stable`); any
two functions with these properties agree on every list.
-/

lemma concKeyLt_iff (a b : ConcZone) :
    concKeyLt a b = true ↔
      a.priority < b.priority ∨
        (a.priority = b.priority ∧ a.maxD - a.minD < b.maxD - b.minD) := by
  simp [concKeyLt]

lemma concKeyLt_false_iff (a b : ConcZone) :
    concKeyLt a b = false ↔
      b.priority < a.priority ∨
        (b.priority = a.priority ∧ b.maxD - b.minD ≤ a.maxD - a.minD) := by
  rw [Bool.eq_false_iff, Ne, concKeyLt_iff]
  constructor
  · intro h
    push_neg at h
    obtain ⟨h1, h2⟩ := h
    rcases eq_or_lt_of_le h1 with he | hl
    · right
      refine ⟨by linarith, ?_⟩
      have := h2 (by linarith)
      linarith
    · left
      exact hl
  · intro h hcontra
    rcases h with h | ⟨he, hw⟩ <;> rcases hcontra with h2 | ⟨he2, hw2⟩ <;> linarith

lemma concKeyLt_asymm (a b : ConcZone) (h : concKeyLt a b = true) :
    concKeyLt b a = false := by
  rw [concKeyLt_false_iff]
  rw [concKeyLt_iff] at h
  rcases h with h | ⟨he, hw⟩
  · left
    exact h
  · right
    exact ⟨he, le_of_lt hw⟩

lemma concKeyLe_trans (x y z : ConcZone) (h1 : concKeyLt y x = false)
    (h2 : concKeyLt z y = false) : concKeyLt z x = false := by
  rw [concKeyLt_false_iff] at h1 h2 ⊢
  rcases h1 with h1 | ⟨he1, hw1⟩ <;> rcases h2 with h2 | ⟨he2, hw2⟩
  · left
    linarith
  · left
    linarith
  · left
    linarith
  · right
    exact ⟨by linarith, by linarith⟩

lemma mem_insertConc (x b : ConcZone) (l : List ConcZone) :
    b ∈ insertConc x l ↔ b = x ∨ b ∈ l := by
  induction l with
  | nil => simp [insertConc]
  | cons y ys ih =>
    unfold insertConc
    by_cases hc : concKeyLt y x = true
    · rw [if_pos hc]
      simp only [List.mem_cons, ih]
      tauto
    · rw [if_neg hc]
      simp [List.mem_cons]

lemma insertConc_sorted (x : ConcZone) (l : List ConcZone)
    (hl : l.Pairwise (fun a b => concKeyLt b a = false)) :
    (insertConc x l).Pairwise (fun a b => concKeyLt b a = false) := by
  induction l with
  | nil => simp [insertConc]
  | cons y ys ih =>
    obtain ⟨hy, hys⟩ := List.pairwise_cons.mp hl
    unfold insertConc
    by_cases hc : concKeyLt y x = true
    · rw [if_pos hc]
      refine List.pairwise_cons.mpr ⟨?_, ih hys⟩
      intro b hb
      rcases (mem_insertConc x b ys).mp hb with rfl | hb'
      · exact concKeyLt_asymm y b hc
      · exact hy b hb'
    · rw [if_neg hc]
      refine List.pairwise_cons.mpr ⟨?_, hl⟩
      intro b hb
      rcases List.mem_cons.mp hb with hby | hb'
      · rw [hby]
        exact Bool.eq_false_iff.mpr hc
      · exact concKeyLe_trans x y b (Bool.eq_false_iff.mpr hc) (hy b hb')

theorem sortConc_sorted (l : List ConcZone) :
    (sortConc l).Pairwise (fun a b => concKeyLt b a = false) := by
  induction l with
  | nil => simp [sortConc]
  | cons x xs ih => exact insertConc_sorted x (sortConc xs) ih

lemma insertConc_perm (x : ConcZone) (l : List ConcZone) :
    (insertConc x l).Perm (x :: l) := by
  induction l with
  | nil => simp [insertConc]
  | cons y ys ih =>
    unfold insertConc
    by_cases hc : concKeyLt y x = true
    · rw [if_pos hc]
      exact (ih.cons y).trans (List.Perm.swap x y ys)
    · rw [if_neg hc]

theorem sortConc_perm (l : List ConcZone) : (sortConc l).Perm l := by
  induction l with
  | nil => simp [sortConc]
  | cons x xs ih => exact (insertConc_perm x (sortConc xs)).trans (ih.cons x)

lemma filter_insertConc (x : ConcZone) (l : List ConcZone) (p : ConcZone → Bool)
    (hp : ∀ a b : ConcZone, p a = true → p b = true → concKeyLt a b = false) :
    (insertConc x l).filter p = if p x then x :: l.filter p else l.filter p := by
  induction l with
  | nil =>
    simp [insertConc, List.filter_cons]
  | cons y ys ih =>
    unfold insertConc
    by_cases hc : concKeyLt y x = true
    · rw [if_pos hc]
      by_cases hy : p y = true
      · have hx : p x = false := by
          cases hxv : p x with
          | false => rfl
          | true => exact absurd (hp y x hy hxv) (by simp [hc])
        simp [List.filter_cons, hy, hx, ih]
      · have hy' : p y = false := by
          simpa using hy
        simp [List.filter_cons, hy', ih]
    · rw [if_neg hc]
      simp [List.filter_cons]

theorem sortConc_stable (l : List ConcZone) (pr w : ℚ) :
    (sortConc l).filter
        (fun z => decide (z.priority = pr ∧ z.maxD - z.minD = w)) =
      l.filter (fun z => decide (z.priority = pr ∧ z.maxD - z.minD = w)) := by
  have hp : ∀ a b : ConcZone,
      (fun z => decide (z.priority = pr ∧ z.maxD - z.minD = w)) a = true →
      (fun z => decide (z.priority = pr ∧ z.maxD - z.minD = w)) b = true →
      concKeyLt a b = false := by
    intro a b ha hb
    simp only [decide_eq_true_eq] at ha hb
    rw [concKeyLt_false_iff]
    right
    refine ⟨by rw [hb.1, ha.1], by rw [hb.2, ha.2]⟩
  induction l with
  | nil => simp [sortConc]
  | cons x xs ih =>
    show (insertConc x (sortConc xs)).filter _ = _
    rw [filter_insertConc x (sortConc xs) _ hp, ih, List.filter_cons]
